import Mathlib

/-!
Shallow embedding of the `InvestorVesting` NEAR contract (near-sdk-js source,
the variant with the global initial-claim overlay) together with proofs about
its vesting calculator, its batch configuration operations, its claim/withdraw
protocol and the ledger invariants.

Modelling conventions, fixed once for the whole file:

* JS `BigInt` values are embedded as `Int`; `BigInt` division truncates toward
  zero, which is `Int.tdiv`.
* Contract storage (the `UnorderedMap` fields and the scalar fields) is an
  explicit `ContractState` record; `UnorderedMap` is embedded as an
  association list with overwrite-on-set semantics (`mapGet` / `mapSet`).
* A method that throws is embedded as a function returning `VResult`:
  `VResult.err e` means the call aborted.  The hosting environment (a NEAR
  receipt) persists no storage write of an aborted call, so an `err` result
  leaves the observable contract state exactly as it was before the call:
  `resultState` realises that semantics.  This is the atomic-call guarantee
  the specification relies on for its all-or-nothing statements.
* String-typed numeric arguments are embedded already parsed.  A JS falsy
  check on a required string field (`!entry.amount`) is embedded by making
  the field an `Option Int` with `none` for the missing/empty string.
* Caller authentication (`assertOwner`, `assertSelf`, `assertOneYocto`,
  `assertTokenCaller`) aborts before any state access; the embedded methods
  describe the post-authentication behaviour.  An unauthenticated call is a
  no-op on storage and is therefore covered by not taking a step.
-/

namespace InvestorVesting

/-- Error outcomes of the contract methods; one constructor per distinct
`throw new Error(...)` site that the embedded methods can reach. -/
inductive VErr where
  | alreadyInitialized
  | tokenRequired
  | basisPointsOutOfRange
  | timestampNegative
  | timestampRequiredWithBasis
  | initialClaimArgsMissing
  | groupsEmpty
  | groupIdRequired
  | duplicateGroupId (id : String)
  | negativeDuration
  | unlockBpsNegative
  | unlockBpsTooLarge
  | investorsEmpty
  | investorFieldsMissing
  | duplicateInvestor (account : String)
  | unknownGroup (id : String)
  | amountNotPositive
  | allocationBelowClaimed (account : String)
  | noAllocation
  | nothingToClaim
  | insufficientPoolBalance
  | amountRequired
  | withdrawNotPositive
  | withdrawExceedsPool
  | depositNotPositive
  | investorMissingOnRevert
  | transferFailed
deriving DecidableEq, Repr

/-- Result of a contract method: either the new contract-visible value or the
error the method aborted with. -/
inductive VResult (α : Type) where
  | ok (value : α)
  | err (e : VErr)
deriving DecidableEq, Repr

/-- Stored vesting schedule of a group (`GroupConfigStored`). -/
structure GroupConfig where
  cliffDurationNs : Int
  vestingDurationNs : Int
  initialUnlockBasisPoints : Int
deriving DecidableEq, Repr

/-- Ledger record of one investor (`InvestorRecord`). -/
structure InvestorRecord where
  groupId : String
  totalAllocation : Int
  claimed : Int
deriving DecidableEq, Repr

/-- Input entry of `configure_groups` / `init` (`GroupConfigInput`); the
optional basis points field models `initial_unlock_basis_points?`. -/
structure GroupConfigInput where
  id : String
  cliff_duration_ns : Int
  vesting_duration_ns : Int
  initial_unlock_basis_points : Option Int
deriving DecidableEq, Repr

/-- Input entry of `upsert_investors` (`InvestorInput`); `amount = none`
models a missing or empty amount string (the JS falsy check). -/
structure InvestorInput where
  account_id : String
  group_id : String
  amount : Option Int
deriving DecidableEq, Repr

/-- The persisted fields of the `InvestorVesting` contract. -/
structure ContractState where
  owner : String
  tokenAccountId : String
  tgeTimestampNs : Int
  initialClaimBasisPoints : Int
  initialClaimAvailableTimestampNs : Int
  totalDeposited : Int
  totalClaimed : Int
  totalWithdrawn : Int
  poolBalance : Int
  groups : List (String × GroupConfig)
  investors : List (String × InvestorRecord)
deriving DecidableEq, Repr

/-- Lookup in an association-list map (`UnorderedMap.get`). -/
def mapGet {α : Type} : List (String × α) → String → Option α
  | [], _ => none
  | (k, v) :: rest, key => if k = key then some v else mapGet rest key

/-- Overwrite-or-append update of an association-list map
(`UnorderedMap.set`). -/
def mapSet {α : Type} : List (String × α) → String → α → List (String × α)
  | [], key, v => [(key, v)]
  | (k, w) :: rest, key, v =>
      if k = key then (key, v) :: rest else (k, w) :: mapSet rest key v

/-- `BASIS_POINTS_DENOMINATOR = BigInt(10_000)`. -/
def BASIS_POINTS_DENOMINATOR : Int := 10000

/-- Field defaults of the contract class: the state of a deployed but not yet
initialized contract. -/
def initialContractState : ContractState :=
  { owner := ""
    tokenAccountId := ""
    tgeTimestampNs := 0
    initialClaimBasisPoints := 0
    initialClaimAvailableTimestampNs := 0
    totalDeposited := 0
    totalClaimed := 0
    totalWithdrawn := 0
    poolBalance := 0
    groups := []
    investors := [] }

/-- `computeVestedAmount(total, group, timestamp)`, with the three state
fields it reads (`tgeTimestampNs`, `initialClaimBasisPoints`,
`initialClaimAvailableTimestampNs`) passed explicitly.  Division is JS
`BigInt` division, i.e. truncation toward zero (`Int.tdiv`). -/
def computeVestedAmount (tgeTimestampNs initialClaimBasisPoints
    initialClaimAvailableTimestampNs total : Int) (group : GroupConfig)
    (timestamp : Int) : Int :=
  let start := tgeTimestampNs
  let cliff := group.cliffDurationNs
  let vesting := group.vestingDurationNs
  let initialClaimStart := initialClaimAvailableTimestampNs
  let initialClaimBps := initialClaimBasisPoints
  let postCliffBps := group.initialUnlockBasisPoints
  let initialPortionRaw :=
    Int.tdiv (total * initialClaimBps) BASIS_POINTS_DENOMINATOR
  let initialPortion := if initialPortionRaw > total then total else initialPortionRaw
  let remainingAfterInitial := total - initialPortion
  let postCliffPortionRaw :=
    Int.tdiv (total * postCliffBps) BASIS_POINTS_DENOMINATOR
  let postCliffPortion :=
    if postCliffPortionRaw > remainingAfterInitial then remainingAfterInitial
    else postCliffPortionRaw
  let linearPortionBase := total - initialPortion - postCliffPortion
  let vested : Int := if timestamp ≥ initialClaimStart then 0 + initialPortion else 0
  if timestamp < start + cliff then
    (if vested > total then total else vested)
  else if vesting = 0 then
    total
  else
    let vested2 := vested + postCliffPortion
    let elapsed := timestamp - (start + cliff)
    if elapsed ≥ vesting then
      total
    else
      let linearVested := Int.tdiv (linearPortionBase * elapsed) vesting
      let vested3 := vested2 + linearVested
      if vested3 > total then total else vested3

/-- `computeClaimable(accountId, timestamp)`. -/
def computeClaimable (s : ContractState) (accountId : String)
    (timestamp : Int) : Int :=
  match mapGet s.investors accountId with
  | none => 0
  | some record =>
    match mapGet s.groups record.groupId with
    | none => 0
    | some group =>
      let total := record.totalAllocation
      let claimed := record.claimed
      if total = claimed then 0
      else
        let vestable := computeVestedAmount s.tgeTimestampNs
          s.initialClaimBasisPoints s.initialClaimAvailableTimestampNs
          total group timestamp
        if vestable ≤ claimed then 0 else vestable - claimed

/-- `setGroupsInternal`'s validation-and-build loop.  The source clears the
stored map and then writes each validated entry; an abort anywhere in the loop
persists nothing, so the loop is embedded as a pure fold producing the
replacement registry. -/
def setGroupsAux (seen : List String) (acc : List (String × GroupConfig)) :
    List GroupConfigInput → VResult (List (String × GroupConfig))
  | [] => .ok acc
  | g :: rest =>
    if g.id = "" then .err .groupIdRequired
    else if g.id ∈ seen then .err (.duplicateGroupId g.id)
    else
      let cliff := g.cliff_duration_ns
      let vesting := g.vesting_duration_ns
      let initialUnlockBps := g.initial_unlock_basis_points.getD 0
      if cliff < 0 ∨ vesting < 0 then .err .negativeDuration
      else if initialUnlockBps < 0 then .err .unlockBpsNegative
      else if initialUnlockBps > BASIS_POINTS_DENOMINATOR then .err .unlockBpsTooLarge
      else
        setGroupsAux (g.id :: seen)
          (mapSet acc g.id ⟨cliff, vesting, initialUnlockBps⟩) rest

/-- `setGroupsInternal(groups)`. -/
def setGroupsInternal (s : ContractState) (groups : List GroupConfigInput) :
    VResult ContractState :=
  if groups = [] then .err .groupsEmpty
  else
    match setGroupsAux [] [] groups with
    | .err e => .err e
    | .ok gs => .ok { s with groups := gs }

/-- `setInitialClaimConfig(args)`.  The source falls back to the currently
stored field when an argument is absent (`?? this....`; the stored fields are
always present strings, so the later `?? tgeTimestampNs ?? '0'` fallbacks are
dead).  The source also assigns `initialClaimBasisPoints` before validating
the timestamp, but an abort persists nothing, so assignment order is
immaterial in the embedded form. -/
def setInitialClaimConfig (s : ContractState)
    (initial_claim_basis_points initial_claim_available_timestamp_ns :
      Option Int) : VResult ContractState :=
  let basis := initial_claim_basis_points.getD s.initialClaimBasisPoints
  if basis < 0 ∨ basis > BASIS_POINTS_DENOMINATOR then .err .basisPointsOutOfRange
  else
    let timestamp :=
      initial_claim_available_timestamp_ns.getD s.initialClaimAvailableTimestampNs
    if timestamp < 0 then .err .timestampNegative
    else if basis > 0 ∧ timestamp = 0 then .err .timestampRequiredWithBasis
    else .ok { s with initialClaimBasisPoints := basis
                      initialClaimAvailableTimestampNs := timestamp }

/-- `init(...)`; `caller` is `near.predecessorAccountId()`.  The non-empty
check on the `tge_timestamp_ns` string is a parsing precondition of the
embedding (the argument arrives already parsed). -/
def init (s : ContractState) (caller : String) (owner : Option String)
    (token_account_id : String) (tge_timestamp_ns : Int)
    (groups : List GroupConfigInput)
    (initial_claim_basis_points initial_claim_available_timestamp_ns :
      Option Int) : VResult ContractState :=
  if s.owner ≠ "" then .err .alreadyInitialized
  else if token_account_id = "" then .err .tokenRequired
  else
    let s1 := { s with owner := owner.getD caller
                       tokenAccountId := token_account_id
                       tgeTimestampNs := tge_timestamp_ns }
    match setInitialClaimConfig s1 initial_claim_basis_points
        initial_claim_available_timestamp_ns with
    | .err e => .err e
    | .ok s2 => setGroupsInternal s2 groups

/-- `configure_groups({groups})` after the owner guard. -/
def configure_groups (s : ContractState) (groups : List GroupConfigInput) :
    VResult ContractState :=
  setGroupsInternal s groups

/-- `configure_initial_claim(args)` after the owner guard. -/
def configure_initial_claim (s : ContractState)
    (initial_claim_basis_points initial_claim_available_timestamp_ns :
      Option Int) : VResult ContractState :=
  if initial_claim_basis_points = none ∧
      initial_claim_available_timestamp_ns = none then
    .err .initialClaimArgsMissing
  else
    setInitialClaimConfig s initial_claim_basis_points
      initial_claim_available_timestamp_ns

/-- The per-entry loop of `upsert_investors`, threading the ledger and the
set of accounts already seen in this batch. -/
def upsertInvestorsAux (groups : List (String × GroupConfig))
    (seenAccounts : List String)
    (investors : List (String × InvestorRecord)) :
    List InvestorInput → VResult (List (String × InvestorRecord))
  | [] => .ok investors
  | entry :: rest =>
    if entry.account_id = "" ∨ entry.group_id = "" ∨ entry.amount = none then
      .err .investorFieldsMissing
    else if entry.account_id ∈ seenAccounts then
      .err (.duplicateInvestor entry.account_id)
    else if (mapGet groups entry.group_id).isNone then
      .err (.unknownGroup entry.group_id)
    else
      let amount := entry.amount.getD 0
      if amount ≤ 0 then .err .amountNotPositive
      else
        match mapGet investors entry.account_id with
        | some current =>
          if amount < current.claimed then
            .err (.allocationBelowClaimed entry.account_id)
          else
            upsertInvestorsAux groups (entry.account_id :: seenAccounts)
              (mapSet investors entry.account_id
                ⟨entry.group_id, amount, current.claimed⟩) rest
        | none =>
          upsertInvestorsAux groups (entry.account_id :: seenAccounts)
            (mapSet investors entry.account_id ⟨entry.group_id, amount, 0⟩) rest

/-- `upsert_investors({investors})` after the owner guard. -/
def upsert_investors (s : ContractState) (investors : List InvestorInput) :
    VResult ContractState :=
  if investors = [] then .err .investorsEmpty
  else
    match upsertInvestorsAux s.groups [] s.investors investors with
    | .err e => .err e
    | .ok inv => .ok { s with investors := inv }

/-- The transfer a claim or withdraw hands to the token service, together
with the arguments the registered resolution continuation will carry. -/
structure PendingTransfer where
  account : String
  amount : Int
deriving DecidableEq, Repr

/-- `claim({account_id})` after the one-yocto and on-behalf-of guards:
`claimant` is the resolved account, `timestamp` is `near.blockTimestamp()`.
On success the returned state already carries the optimistic mutation — it is
persisted before the `ft_transfer` promise is created — and the returned
`PendingTransfer` is the transfer/continuation pair the method schedules. -/
def claim (s : ContractState) (claimant : String) (timestamp : Int) :
    VResult (ContractState × PendingTransfer) :=
  match mapGet s.investors claimant with
  | none => .err .noAllocation
  | some record =>
    let claimable := computeClaimable s claimant timestamp
    if claimable ≤ 0 then .err .nothingToClaim
    else if claimable > s.poolBalance then .err .insufficientPoolBalance
    else
      .ok ({ s with
              investors := mapSet s.investors claimant
                { record with claimed := record.claimed + claimable }
              totalClaimed := s.totalClaimed + claimable
              poolBalance := s.poolBalance - claimable },
        ⟨claimant, claimable⟩)

/-- `withdraw_unallocated({amount, recipient, memo})` after the owner and
one-yocto guards; `amount = none` models the missing/empty amount string. -/
def withdraw_unallocated (s : ContractState) (amount : Option Int)
    (recipient : Option String) : VResult (ContractState × PendingTransfer) :=
  match amount with
  | none => .err .amountRequired
  | some withdrawal =>
    if withdrawal ≤ 0 then .err .withdrawNotPositive
    else if withdrawal > s.poolBalance then .err .withdrawExceedsPool
    else
      let target := recipient.getD s.owner
      .ok ({ s with poolBalance := s.poolBalance - withdrawal
                    totalWithdrawn := s.totalWithdrawn + withdrawal },
        ⟨target, withdrawal⟩)

/-- `ft_on_transfer({sender_id, amount, msg})` after the token-caller guard.
The source always returns the string `'0'` (no part of the deposit refused);
only the state effect matters here. -/
def ft_on_transfer (s : ContractState) (amount : Option Int) :
    VResult ContractState :=
  match amount with
  | none => .err .amountRequired
  | some deposit =>
    if deposit ≤ 0 then .err .depositNotPositive
    else
      .ok { s with poolBalance := s.poolBalance + deposit
                   totalDeposited := s.totalDeposited + deposit }

/-- The storage writes the catch branch of `on_claim_complete` performs
before its final `throw` (source lines 297-307): decrement the claimant's
`claimed`, decrement `totalClaimed`, restore `poolBalance`.  They are listed
separately because the branch ends in a throw and an aborted call persists
none of its writes. -/
def claimRevertWrites (s : ContractState) (account_id : String)
    (amount : Int) : Option ContractState :=
  match mapGet s.investors account_id with
  | none => none
  | some record =>
    some { s with
            investors := mapSet s.investors account_id
              { record with claimed := record.claimed - amount }
            totalClaimed := s.totalClaimed - amount
            poolBalance := s.poolBalance + amount }

/-- `on_claim_complete({account_id, amount})` after the self-only guard;
`transferSucceeded` is whether `near.promiseResult(0)` reports success.  On
success the method changes nothing.  On failure the catch branch performs
`claimRevertWrites` and then throws `Token transfer failed` (or throws
`Investor record missing during claim revert` first), so the call aborts and
none of those writes is persisted. -/
def on_claim_complete (s : ContractState) (account_id : String)
    (amount : Int) (transferSucceeded : Bool) : VResult ContractState :=
  if transferSucceeded then .ok s
  else
    match mapGet s.investors account_id with
    | none => .err .investorMissingOnRevert
    | some _ => .err .transferFailed

/-- The storage writes the catch branch of `on_withdraw_complete` performs
before its final `throw` (source lines 320-322). -/
def withdrawRevertWrites (s : ContractState) (amount : Int) : ContractState :=
  { s with poolBalance := s.poolBalance + amount
           totalWithdrawn := s.totalWithdrawn - amount }

/-- `on_withdraw_complete({recipient, amount})` after the self-only guard.
On failure the catch branch performs `withdrawRevertWrites` and then throws,
so the call aborts and the writes are not persisted. -/
def on_withdraw_complete (s : ContractState) (amount : Int)
    (transferSucceeded : Bool) : VResult ContractState :=
  if transferSucceeded then .ok s else .err .transferFailed

/-- Observable contract state after a call: the new state if the call
succeeded, the unchanged previous state if it aborted (a failed NEAR receipt
persists no storage write). -/
def resultState (s : ContractState) : VResult ContractState → ContractState
  | .ok s' => s'
  | .err _ => s

/-- Observable contract state after a fund-moving call returning a scheduled
transfer. -/
def resultStateP (s : ContractState) :
    VResult (ContractState × PendingTransfer) → ContractState
  | .ok (s', _) => s'
  | .err _ => s

/-- A contract state together with the in-flight transfers whose resolution
continuations have been scheduled but have not yet run. -/
structure World where
  cs : ContractState
  pendingClaims : List PendingTransfer
  pendingWithdraws : List PendingTransfer

/-- The world of a freshly deployed contract. -/
def initialWorld : World := ⟨initialContractState, [], []⟩

/-- One externally observable transition: a successful call of any contract
method, or the run of a scheduled resolution continuation (with either
transfer outcome; an aborting continuation persists nothing, which
`resultState` realises).  A call that aborts leaves the state unchanged and
therefore needs no transition. -/
inductive Step : World → World → Prop where
  | initOp :
      init w.cs caller owner tok tge gs icb ict = .ok cs' →
      Step w ⟨cs', w.pendingClaims, w.pendingWithdraws⟩
  | configureGroupsOp :
      configure_groups w.cs gs = .ok cs' →
      Step w ⟨cs', w.pendingClaims, w.pendingWithdraws⟩
  | configureInitialClaimOp :
      configure_initial_claim w.cs icb ict = .ok cs' →
      Step w ⟨cs', w.pendingClaims, w.pendingWithdraws⟩
  | upsertOp :
      upsert_investors w.cs entries = .ok cs' →
      Step w ⟨cs', w.pendingClaims, w.pendingWithdraws⟩
  | ftOnTransferOp :
      ft_on_transfer w.cs amount = .ok cs' →
      Step w ⟨cs', w.pendingClaims, w.pendingWithdraws⟩
  | claimOp :
      claim w.cs claimant ts = .ok (cs', p) →
      Step w ⟨cs', p :: w.pendingClaims, w.pendingWithdraws⟩
  | withdrawOp :
      withdraw_unallocated w.cs amount recipient = .ok (cs', p) →
      Step w ⟨cs', w.pendingClaims, p :: w.pendingWithdraws⟩
  | resolveClaimOp (success : Bool) :
      p ∈ w.pendingClaims →
      Step w ⟨resultState w.cs (on_claim_complete w.cs p.account p.amount success),
        w.pendingClaims.erase p, w.pendingWithdraws⟩
  | resolveWithdrawOp (success : Bool) :
      p ∈ w.pendingWithdraws →
      Step w ⟨resultState w.cs (on_withdraw_complete w.cs p.amount success),
        w.pendingClaims, w.pendingWithdraws.erase p⟩

/-- The externally observable worlds: everything reachable from a fresh
deployment by any sequence of operations and continuation resolutions. -/
inductive Reach : World → Prop where
  | deployed : Reach initialWorld
  | step : Reach w → Step w w' → Reach w'

/-- Modelled from the spec, section 4.1: the reference `vestedAmount`
formula as the specification words it.  `initialPortion` is the capped
basis-point share "counted only if `now ≥ overlay.initialClaimAvailableTimestamp`,
else 0", and that (gated) value is the one the subsequent derived quantities
`remainingAfterInitial`, `postCliffPortion` and `linearBase` are built
from. -/
def specVestedAmount (tgeTimestamp initialClaimBasisPoints
    initialClaimAvailableTimestamp total : Int) (group : GroupConfig)
    (now : Int) : Int :=
  let initialPortion :=
    if now ≥ initialClaimAvailableTimestamp then
      min total (Int.tdiv (total * initialClaimBasisPoints) BASIS_POINTS_DENOMINATOR)
    else 0
  let remainingAfterInitial := total - initialPortion
  if now < tgeTimestamp + group.cliffDurationNs then
    min initialPortion total
  else
    let postCliffPortion :=
      min remainingAfterInitial
        (Int.tdiv (total * group.initialUnlockBasisPoints) BASIS_POINTS_DENOMINATOR)
    let linearBase := total - initialPortion - postCliffPortion
    if group.vestingDurationNs = 0 then total
    else
      let elapsed := now - (tgeTimestamp + group.cliffDurationNs)
      if elapsed ≥ group.vestingDurationNs then total
      else
        initialPortion + postCliffPortion +
          Int.tdiv (linearBase * elapsed) group.vestingDurationNs

/-- The amended reference formula, changed from `specVestedAmount` only where
the counterexample forces it: the raw capped share
`initialPortionRaw = min(total, floor(total·initialClaimBasisPoints/10000))`
is subtracted when deriving `remainingAfterInitial`, `postCliffPortion` and
`linearBase` whether or not the overlay gate has opened; the gate
`now ≥ initialClaimAvailableTimestamp` controls only whether
`initialPortionRaw` is added to the result; every result is capped at
`total`. -/
def specVestedAmountAmended (tgeTimestamp initialClaimBasisPoints
    initialClaimAvailableTimestamp total : Int) (group : GroupConfig)
    (now : Int) : Int :=
  let initialPortionRaw :=
    min total (Int.tdiv (total * initialClaimBasisPoints) BASIS_POINTS_DENOMINATOR)
  let gatedInitialPortion :=
    if now ≥ initialClaimAvailableTimestamp then initialPortionRaw else 0
  let remainingAfterInitial := total - initialPortionRaw
  if now < tgeTimestamp + group.cliffDurationNs then
    min total gatedInitialPortion
  else if group.vestingDurationNs = 0 then total
  else
    let postCliffPortion :=
      min remainingAfterInitial
        (Int.tdiv (total * group.initialUnlockBasisPoints) BASIS_POINTS_DENOMINATOR)
    let linearBase := total - initialPortionRaw - postCliffPortion
    let elapsed := now - (tgeTimestamp + group.cliffDurationNs)
    if elapsed ≥ group.vestingDurationNs then total
    else
      min total (gatedInitialPortion + postCliffPortion +
        Int.tdiv (linearBase * elapsed) group.vestingDurationNs)

/-- A `configure_groups` input containing a validation failure in the sense
of the specification, section 4.2: a duplicate id, a missing id, a negative
cliff or vesting duration, or unlock basis points outside `[0, 10000]`. -/
def invalidGroupsInput (gs : List GroupConfigInput) : Prop :=
  (∃ g ∈ gs, g.id = "" ∨ g.cliff_duration_ns < 0 ∨ g.vesting_duration_ns < 0 ∨
    g.initial_unlock_basis_points.getD 0 < 0 ∨
    g.initial_unlock_basis_points.getD 0 > 10000) ∨
  ¬ (gs.map GroupConfigInput.id).Nodup

instance (gs : List GroupConfigInput) : Decidable (invalidGroupsInput gs) := by
  unfold invalidGroupsInput
  infer_instance

/-- An `upsert_investors` entry failing validation in the sense of the
specification, section 4.3, judged against the pre-call state `s` and the
batch entries `prior` that precede it: a missing field, a duplicate account
within the batch, an unknown group, a non-positive amount, or an amount below
the account's already-claimed value. -/
def invalidInvestorEntry (s : ContractState) (prior : List InvestorInput)
    (e : InvestorInput) : Prop :=
  e.account_id = "" ∨ e.group_id = "" ∨ e.amount = none ∨
  (∃ p ∈ prior, p.account_id = e.account_id) ∨
  mapGet s.groups e.group_id = none ∨
  e.amount.getD 0 ≤ 0 ∨
  (∃ rec, mapGet s.investors e.account_id = some rec ∧
    e.amount.getD 0 < rec.claimed)

instance (s : ContractState) (prior : List InvestorInput) (e : InvestorInput) :
    Decidable (invalidInvestorEntry s prior e) := by
  unfold invalidInvestorEntry
  infer_instance

/-! ### Association-list map lemmas -/

theorem mapGet_mapSet {α : Type} (m : List (String × α)) (k k' : String)
    (v : α) :
    mapGet (mapSet m k v) k' = if k = k' then some v else mapGet m k' := by
  induction m with
  | nil => by_cases h : k = k' <;> simp [mapSet, mapGet, h]
  | cons hd tl ih =>
    obtain ⟨k₀, v₀⟩ := hd
    by_cases h₀ : k₀ = k
    · subst h₀
      by_cases h : k₀ = k' <;> simp [mapSet, mapGet, h]
    · by_cases h : k₀ = k'
      · subst h
        simp only [mapSet, if_neg h₀, mapGet, if_pos rfl]
        by_cases hk : k = k₀
        · exact absurd hk.symm h₀
        · simp [if_neg hk]
      · simp [mapSet, if_neg h₀, mapGet, if_neg h, ih]

/-! ### Calculator lemmas -/

/-- The JS conditional `a > b ? b : a` is `min b a`. -/
theorem ite_gt_eq_min (a b : Int) : (if a > b then b else a) = min b a := by
  split <;> omega

/-- Every return branch of `computeVestedAmount` is capped at `total`, for
arbitrary (even invalid) configuration values. -/
theorem computeVestedAmount_le_total (tge icBps icTs total : Int)
    (g : GroupConfig) (ts : Int) :
    computeVestedAmount tge icBps icTs total g ts ≤ total := by
  simp only [computeVestedAmount]
  split_ifs <;> omega

/-- `computeVestedAmount` written with `min` in place of the JS conditionals:
exactly `specVestedAmountAmended`.  This is the shape every quantitative
lemma below goes through. -/
theorem computeVestedAmount_eq_minForm (tge icBps icTs total : Int)
    (g : GroupConfig) (ts : Int) :
    computeVestedAmount tge icBps icTs total g ts =
      specVestedAmountAmended tge icBps icTs total g ts := by
  simp only [computeVestedAmount, specVestedAmountAmended, ite_gt_eq_min,
    zero_add]

/-- With a non-negative allocation, both basis-point parameters non-negative
and a non-negative vesting duration, `computeVestedAmount` is
non-negative. -/
theorem computeVestedAmount_nonneg (tge icBps icTs total : Int)
    (g : GroupConfig) (ts : Int) (htotal : 0 ≤ total) (h₁ : 0 ≤ icBps)
    (h₃ : 0 ≤ g.initialUnlockBasisPoints)
    (h₅ : 0 ≤ g.vestingDurationNs) :
    0 ≤ computeVestedAmount tge icBps icTs total g ts := by
  have hd₁ : 0 ≤ Int.tdiv (total * icBps) BASIS_POINTS_DENOMINATOR :=
    Int.tdiv_nonneg (by positivity) (by norm_num [BASIS_POINTS_DENOMINATOR])
  have hd₂ : 0 ≤ Int.tdiv (total * g.initialUnlockBasisPoints)
      BASIS_POINTS_DENOMINATOR :=
    Int.tdiv_nonneg (by positivity) (by norm_num [BASIS_POINTS_DENOMINATOR])
  rw [computeVestedAmount_eq_minForm]
  simp only [specVestedAmountAmended]
  split_ifs
  all_goals try omega
  all_goals
    refine le_min_iff.mpr ⟨htotal, add_nonneg (add_nonneg (by omega) (by omega))
      (Int.tdiv_nonneg (mul_nonneg (by omega) (by omega)) h₅)⟩

/-! ### C1: the vesting formula against the reference definition -/

/-- C1, counterexample.  With overlay basis points 5000 gated behind a future
availability timestamp (1000), group cliff 0, vesting 100, allocation 10000
and `now = 50`, the code yields 2500 — it reserves the not-yet-available
initial portion out of the linear base — while the reference definition of
section 4.1 (whose `initialPortion` is `0` before the gate opens, and whose
`remainingAfterInitial`, `postCliffPortion` and `linearBase` are derived from
that gated value) yields 5000.  So `computeVestedAmount` does not equal the
reference definition for every input. -/
theorem computeVestedAmount_ne_specVestedAmount :
    computeVestedAmount 0 5000 1000 10000 ⟨0, 100, 0⟩ 50 = 2500 ∧
    specVestedAmount 0 5000 1000 10000 ⟨0, 100, 0⟩ 50 = 5000 ∧
    computeVestedAmount 0 5000 1000 10000 ⟨0, 100, 0⟩ 50 ≠
      specVestedAmount 0 5000 1000 10000 ⟨0, 100, 0⟩ 50 := by
  refine ⟨by decide, by decide, by decide⟩

/-- C1, amended.  For every allocation total, group config, overlay config
and timestamp, `computeVestedAmount` equals the amended reference definition:
the ungated capped share `initialPortionRaw` is the value subtracted when
deriving `remainingAfterInitial`, `postCliffPortion` and `linearBase`; the
availability gate controls only whether `initialPortionRaw` is added to the
result; all results are capped at `total`; all division truncates toward
zero. -/
theorem computeVestedAmount_eq_amended_reference (tge icBps icTs total : Int)
    (g : GroupConfig) (ts : Int) :
    computeVestedAmount tge icBps icTs total g ts =
      specVestedAmountAmended tge icBps icTs total g ts :=
  computeVestedAmount_eq_minForm tge icBps icTs total g ts

/-! ### C6: claimable as a max -/

/-- C6.  For every state, account and timestamp, the claimable amount equals
`max 0 (vestedAmount − claimed)` computed from the account's record and its
group, and it equals `0` (the `getD 0` default) whenever the account has no
investor record or the record's group id is absent from the registry. -/
theorem computeClaimable_eq_max (s : ContractState) (a : String) (ts : Int) :
    computeClaimable s a ts =
      (((mapGet s.investors a).bind fun record =>
        (mapGet s.groups record.groupId).map fun group =>
          max 0 (computeVestedAmount s.tgeTimestampNs s.initialClaimBasisPoints
            s.initialClaimAvailableTimestampNs record.totalAllocation group ts
            - record.claimed)).getD 0) := by
  cases hrec : mapGet s.investors a with
  | none => simp [computeClaimable, hrec]
  | some record =>
    cases hgrp : mapGet s.groups record.groupId with
    | none => simp [computeClaimable, hrec, hgrp]
    | some group =>
      have hle := computeVestedAmount_le_total s.tgeTimestampNs
        s.initialClaimBasisPoints s.initialClaimAvailableTimestampNs
        record.totalAllocation group ts
      simp only [computeClaimable, hrec, hgrp, Option.some_bind,
        Option.map_some', Option.getD_some]
      split_ifs <;> omega

/-! ### C10: range of the vested amount, bound on the claimable amount -/

/-- C10.  For an investor record whose group is registered, with the
contract-enforced sign conditions on the configuration (non-negative
allocation, basis points and vesting duration), the vested amount lies in
`[0, totalAllocation]`; consequently the claimable amount never exceeds
`totalAllocation − claimed`, which is what lets a successful claim preserve
`claimed ≤ totalAllocation`. -/
theorem computeVestedAmount_range_and_claimable_le (s : ContractState)
    (acct : String) (ts : Int) (rec : InvestorRecord) (g : GroupConfig)
    (hrec : mapGet s.investors acct = some rec)
    (hg : mapGet s.groups rec.groupId = some g)
    (htotal : 0 ≤ rec.totalAllocation)
    (hclaimed : rec.claimed ≤ rec.totalAllocation)
    (h₁ : 0 ≤ s.initialClaimBasisPoints)
    (h₃ : 0 ≤ g.initialUnlockBasisPoints)
    (h₅ : 0 ≤ g.vestingDurationNs) :
    0 ≤ computeVestedAmount s.tgeTimestampNs s.initialClaimBasisPoints
      s.initialClaimAvailableTimestampNs rec.totalAllocation g ts ∧
    computeVestedAmount s.tgeTimestampNs s.initialClaimBasisPoints
      s.initialClaimAvailableTimestampNs rec.totalAllocation g ts ≤
      rec.totalAllocation ∧
    computeClaimable s acct ts ≤ rec.totalAllocation - rec.claimed := by
  have hnn := computeVestedAmount_nonneg s.tgeTimestampNs
    s.initialClaimBasisPoints s.initialClaimAvailableTimestampNs
    rec.totalAllocation g ts htotal h₁ h₃ h₅
  have hle := computeVestedAmount_le_total s.tgeTimestampNs
    s.initialClaimBasisPoints s.initialClaimAvailableTimestampNs
    rec.totalAllocation g ts
  refine ⟨hnn, hle, ?_⟩
  simp only [computeClaimable, hrec, hg]
  split_ifs <;> omega

/-- C10, witness: a concrete state exercising the theorem — allocation 100,
claimed 0, overlay basis points 500, group with unlock basis points 1000 and
vesting 10. -/
theorem computeVestedAmount_range_and_claimable_le_witness :
    0 ≤ computeVestedAmount 0 500 5 100 ⟨0, 10, 1000⟩ 7 ∧
    computeVestedAmount 0 500 5 100 ⟨0, 10, 1000⟩ 7 ≤ 100 ∧
    computeClaimable
      { initialContractState with
          initialClaimBasisPoints := 500
          initialClaimAvailableTimestampNs := 5
          groups := [("g", ⟨0, 10, 1000⟩)]
          investors := [("alice", ⟨"g", 100, 0⟩)] } "alice" 7 ≤ 100 - 0 :=
  computeVestedAmount_range_and_claimable_le
    { initialContractState with
        initialClaimBasisPoints := 500
        initialClaimAvailableTimestampNs := 5
        groups := [("g", ⟨0, 10, 1000⟩)]
        investors := [("alice", ⟨"g", 100, 0⟩)] }
    "alice" 7 ⟨"g", 100, 0⟩ ⟨0, 10, 1000⟩ (by decide) (by decide) (by decide)
    (by decide) (by decide) (by decide) (by decide)

/-- A funded one-investor contract used by the claim witnesses: group `g`
with zero cliff and zero vesting, investor `alice` with allocation 5,
pool balance 5. -/
def claimWitnessState : ContractState :=
  { initialContractState with
      owner := "owner"
      tokenAccountId := "token"
      totalDeposited := 5
      poolBalance := 5
      groups := [("g", ⟨0, 0, 0⟩)]
      investors := [("alice", ⟨"g", 5, 0⟩)] }

/-- A contract used by the upsert witness: investor `alice` with allocation 5
of which 2 already claimed. -/
def upsertWitnessState : ContractState :=
  { initialContractState with
      owner := "owner"
      groups := [("g", ⟨0, 0, 0⟩)]
      investors := [("alice", ⟨"g", 5, 2⟩)] }

/-! ### C4: the three-way behaviour of `claim` -/

/-- C4.  For an authorized claim on an account with an existing investor
record: a zero claimable amount aborts with the nothing-to-claim error and
mutates nothing; a claimable amount exceeding the pool balance aborts with
the insufficient-pool-balance error and mutates nothing; otherwise the state
handed to the transfer step already carries exactly
`claimed += claimable`, `totalClaimed += claimable` and
`poolBalance -= claimable`, and the scheduled transfer carries the claimant
and the claimable amount. -/
theorem claim_three_way (s : ContractState) (claimant : String) (ts : Int)
    (rec : InvestorRecord)
    (hrec : mapGet s.investors claimant = some rec) :
    (computeClaimable s claimant ts = 0 →
      claim s claimant ts = .err .nothingToClaim ∧
      resultStateP s (claim s claimant ts) = s) ∧
    (0 < computeClaimable s claimant ts →
      s.poolBalance < computeClaimable s claimant ts →
      claim s claimant ts = .err .insufficientPoolBalance ∧
      resultStateP s (claim s claimant ts) = s) ∧
    (0 < computeClaimable s claimant ts →
      computeClaimable s claimant ts ≤ s.poolBalance →
      claim s claimant ts = .ok
        ({ s with
            investors := mapSet s.investors claimant
              { rec with
                  claimed := rec.claimed + computeClaimable s claimant ts }
            totalClaimed := s.totalClaimed + computeClaimable s claimant ts
            poolBalance := s.poolBalance - computeClaimable s claimant ts },
          ⟨claimant, computeClaimable s claimant ts⟩)) := by
  refine ⟨fun h0 => ?_, fun h1 h2 => ?_, fun h1 h2 => ?_⟩
  all_goals
    simp only [claim, hrec]
    split_ifs
    all_goals first
      | exact ⟨rfl, rfl⟩
      | rfl
      | (exfalso; omega)

/-- C4, witness: a funded one-investor contract, fully vested (group with
zero cliff and zero vesting), claiming its whole allocation of 5. -/
theorem claim_three_way_witness :
    (computeClaimable claimWitnessState "alice" 10 = 0 →
      claim claimWitnessState "alice" 10 = .err .nothingToClaim ∧
      resultStateP claimWitnessState (claim claimWitnessState "alice" 10) =
        claimWitnessState) ∧
    (0 < computeClaimable claimWitnessState "alice" 10 →
      claimWitnessState.poolBalance <
        computeClaimable claimWitnessState "alice" 10 →
      claim claimWitnessState "alice" 10 = .err .insufficientPoolBalance ∧
      resultStateP claimWitnessState (claim claimWitnessState "alice" 10) =
        claimWitnessState) ∧
    (0 < computeClaimable claimWitnessState "alice" 10 →
      computeClaimable claimWitnessState "alice" 10 ≤
        claimWitnessState.poolBalance →
      claim claimWitnessState "alice" 10 = .ok
        ({ claimWitnessState with
            investors := mapSet claimWitnessState.investors "alice"
              { groupId := "g", totalAllocation := 5,
                claimed := 0 + computeClaimable claimWitnessState "alice" 10 }
            totalClaimed := claimWitnessState.totalClaimed +
              computeClaimable claimWitnessState "alice" 10
            poolBalance := claimWitnessState.poolBalance -
              computeClaimable claimWitnessState "alice" 10 },
          ⟨"alice", computeClaimable claimWitnessState "alice" 10⟩)) :=
  claim_three_way claimWitnessState "alice" 10 ⟨"g", 5, 0⟩ (by decide)

/-! ### C9: upserting an existing account -/

/-- C9.  A valid `upsert_investors` entry for an account that already has a
record: when the new amount is below the record's `claimed` the call aborts
with the allocation-below-claimed error and the ledger is unchanged;
otherwise `totalAllocation` becomes the new amount while `claimed` is
preserved unchanged — raising an allocation never decreases `claimed`. -/
theorem upsert_existing_entry (s : ContractState) (e : InvestorInput)
    (a : Int) (rec : InvestorRecord) (g : GroupConfig)
    (hrec : mapGet s.investors e.account_id = some rec)
    (hacct : e.account_id ≠ "") (hgrp : e.group_id ≠ "")
    (hamt : e.amount = some a) (hpos : 0 < a)
    (hg : mapGet s.groups e.group_id = some g) :
    (a < rec.claimed →
      upsert_investors s [e] = .err (.allocationBelowClaimed e.account_id) ∧
      resultState s (upsert_investors s [e]) = s) ∧
    (rec.claimed ≤ a →
      upsert_investors s [e] = .ok { s with
        investors := mapSet s.investors e.account_id
          ⟨e.group_id, a, rec.claimed⟩ }) := by
  refine ⟨fun hlow => ?_, fun hok => ?_⟩
  · simp [upsert_investors, upsertInvestorsAux, hamt, hg, hrec, hacct, hgrp,
      hpos.not_le, hlow, resultState]
  · simp [upsert_investors, upsertInvestorsAux, hamt, hg, hrec, hacct, hgrp,
      hpos.not_le, not_lt.mpr hok]

/-- C9, witness: account `alice` with allocation 5 and claimed 2; amount 1 is
below claimed, amount 7 raises the allocation while preserving claimed. -/
theorem upsert_existing_entry_witness :
    ((1 : Int) < 2 →
      upsert_investors upsertWitnessState [⟨"alice", "g", some 1⟩] =
        .err (.allocationBelowClaimed "alice") ∧
      resultState upsertWitnessState
        (upsert_investors upsertWitnessState [⟨"alice", "g", some 1⟩]) =
        upsertWitnessState) ∧
    ((2 : Int) ≤ 1 →
      upsert_investors upsertWitnessState [⟨"alice", "g", some 1⟩] =
        .ok { upsertWitnessState with
          investors := mapSet upsertWitnessState.investors "alice"
            ⟨"g", 1, 2⟩ }) :=
  upsert_existing_entry upsertWitnessState ⟨"alice", "g", some 1⟩ 1
    ⟨"g", 5, 2⟩ ⟨0, 0, 0⟩ (by decide) (by decide) (by decide) (by decide)
    (by decide) (by decide)

/-! ### C7: group replacement is all-or-nothing -/

/-- If some entry of the remaining input is invalid — or duplicates an id
already seen, or the remaining ids are not mutually distinct — the
`setGroupsInternal` loop aborts. -/
theorem setGroupsAux_error (gs : List GroupConfigInput) :
    ∀ (seen : List String) (acc : List (String × GroupConfig)),
      ((∃ g ∈ gs, g.id = "" ∨ g.cliff_duration_ns < 0 ∨
          g.vesting_duration_ns < 0 ∨ g.initial_unlock_basis_points.getD 0 < 0 ∨
          g.initial_unlock_basis_points.getD 0 > 10000) ∨
        ¬ (gs.map GroupConfigInput.id).Nodup ∨
        (∃ g ∈ gs, g.id ∈ seen)) →
      ∃ e, setGroupsAux seen acc gs = .err e := by
  induction gs with
  | nil => intro seen acc h; simp at h
  | cons g rest ih =>
    intro seen acc h
    simp only [setGroupsAux]
    by_cases h1 : g.id = ""
    · rw [if_pos h1]; exact ⟨_, rfl⟩
    rw [if_neg h1]
    by_cases h2 : g.id ∈ seen
    · rw [if_pos h2]; exact ⟨_, rfl⟩
    rw [if_neg h2]
    by_cases h3 : g.cliff_duration_ns < 0 ∨ g.vesting_duration_ns < 0
    · rw [if_pos h3]; exact ⟨_, rfl⟩
    rw [if_neg h3]
    by_cases h4 : g.initial_unlock_basis_points.getD 0 < 0
    · rw [if_pos h4]; exact ⟨_, rfl⟩
    rw [if_neg h4]
    by_cases h5 : g.initial_unlock_basis_points.getD 0 > BASIS_POINTS_DENOMINATOR
    · rw [if_pos h5]; exact ⟨_, rfl⟩
    rw [if_neg h5]
    apply ih
    have h5' : ¬ g.initial_unlock_basis_points.getD 0 > 10000 := by
      simpa [BASIS_POINTS_DENOMINATOR] using h5
    rcases h with ⟨g', hg', hbad⟩ | hnodup | ⟨g', hg', hseen⟩
    · rcases List.mem_cons.mp hg' with rfl | hg'rest
      · rcases hbad with hb | hb | hb | hb | hb
        · exact absurd hb h1
        · exact absurd (Or.inl hb) h3
        · exact absurd (Or.inr hb) h3
        · exact absurd hb h4
        · exact absurd hb h5'
      · exact Or.inl ⟨g', hg'rest, hbad⟩
    · rw [List.map_cons, List.nodup_cons] at hnodup
      by_cases hmem : g.id ∈ rest.map GroupConfigInput.id
      · rcases List.mem_map.mp hmem with ⟨g', hg', hid⟩
        exact Or.inr (Or.inr ⟨g', hg', by rw [hid]; exact List.mem_cons_self _ _⟩)
      · exact Or.inr (Or.inl fun hn => hnodup ⟨hmem, hn⟩)
    · rcases List.mem_cons.mp hg' with rfl | hg'rest
      · exact absurd hseen h2
      · exact Or.inr (Or.inr ⟨g', hg'rest, List.mem_cons_of_mem _ hseen⟩)

/-- C7.  If the input to the group-replacement operation contains any
validation failure — a duplicate id, a missing id, a negative cliff or
vesting duration, or unlock basis points outside `[0, 10000]` — the call
aborts and the observable group registry is exactly the one before the call:
no partial replace. -/
theorem configure_groups_all_or_nothing (s : ContractState)
    (gs : List GroupConfigInput) (h : invalidGroupsInput gs) :
    (∃ e, configure_groups s gs = .err e) ∧
    (resultState s (configure_groups s gs)).groups = s.groups := by
  cases gs with
  | nil =>
    exfalso
    rcases h with ⟨g, hg, _⟩ | hn
    · exact List.not_mem_nil g hg
    · exact hn (by simp)
  | cons g rest =>
    obtain ⟨e, he⟩ := setGroupsAux_error (g :: rest) [] []
      (by rcases h with h | h
          · exact Or.inl h
          · exact Or.inr (Or.inl h))
    have hcall : configure_groups s (g :: rest) = .err e := by
      simp [configure_groups, setGroupsInternal, he]
    exact ⟨⟨e, hcall⟩, by rw [hcall]; rfl⟩

/-- C7, witness: a batch with a negative cliff duration fails and leaves the
registry of `claimWitnessState` unchanged. -/
theorem configure_groups_all_or_nothing_witness :
    (∃ e, configure_groups claimWitnessState [⟨"a", -1, 0, none⟩] = .err e) ∧
    (resultState claimWitnessState
      (configure_groups claimWitnessState [⟨"a", -1, 0, none⟩])).groups =
      claimWitnessState.groups :=
  configure_groups_all_or_nothing claimWitnessState [⟨"a", -1, 0, none⟩]
    (by decide)

/-! ### C8: investor batch upsert is all-or-nothing -/

/-- If the remaining batch contains an entry that is invalid with respect to
the threaded ledger `m`, the already-seen accounts `seen` and the entries
`pre` still ahead of it, the `upsert_investors` loop aborts. -/
theorem upsertInvestorsAux_error (groups : List (String × GroupConfig)) :
    ∀ (pre : List InvestorInput) (e : InvestorInput) (post : List InvestorInput)
      (seen : List String) (m : List (String × InvestorRecord)),
      (e.account_id = "" ∨ e.group_id = "" ∨ e.amount = none ∨
        (∃ p ∈ pre, p.account_id = e.account_id) ∨
        e.account_id ∈ seen ∨
        mapGet groups e.group_id = none ∨
        e.amount.getD 0 ≤ 0 ∨
        (∃ rec, mapGet m e.account_id = some rec ∧
          e.amount.getD 0 < rec.claimed)) →
      ∃ err, upsertInvestorsAux groups seen m (pre ++ e :: post) = .err err := by
  intro pre
  induction pre with
  | nil =>
    intro e post seen m h
    simp only [List.nil_append, upsertInvestorsAux]
    by_cases h1 : e.account_id = "" ∨ e.group_id = "" ∨ e.amount = none
    · rw [if_pos h1]; exact ⟨_, rfl⟩
    rw [if_neg h1]
    by_cases h2 : e.account_id ∈ seen
    · rw [if_pos h2]; exact ⟨_, rfl⟩
    rw [if_neg h2]
    by_cases h3 : (mapGet groups e.group_id).isNone
    · rw [if_pos h3]; exact ⟨_, rfl⟩
    rw [if_neg h3]
    by_cases h4 : e.amount.getD 0 ≤ 0
    · rw [if_pos h4]; exact ⟨_, rfl⟩
    rw [if_neg h4]
    rcases h with hf | hf | hf | ⟨p, hp, _⟩ | hf | hf | hf | ⟨rec, hrec, hlt⟩
    · exact absurd (Or.inl hf) h1
    · exact absurd (Or.inr (Or.inl hf)) h1
    · exact absurd (Or.inr (Or.inr hf)) h1
    · exact absurd hp (List.not_mem_nil p)
    · exact absurd hf h2
    · exact absurd (by rw [hf]; rfl) h3
    · exact absurd hf h4
    · rw [hrec] at *
      simp only [hrec]
      rw [if_pos hlt]
      exact ⟨_, rfl⟩
  | cons p pre' ih =>
    intro e post seen m h
    simp only [List.cons_append, upsertInvestorsAux]
    by_cases h1 : p.account_id = "" ∨ p.group_id = "" ∨ p.amount = none
    · rw [if_pos h1]; exact ⟨_, rfl⟩
    rw [if_neg h1]
    by_cases h2 : p.account_id ∈ seen
    · rw [if_pos h2]; exact ⟨_, rfl⟩
    rw [if_neg h2]
    by_cases h3 : (mapGet groups p.group_id).isNone
    · rw [if_pos h3]; exact ⟨_, rfl⟩
    rw [if_neg h3]
    by_cases h4 : p.amount.getD 0 ≤ 0
    · rw [if_pos h4]; exact ⟨_, rfl⟩
    rw [if_neg h4]
    have htrans : ∀ (r : InvestorRecord),
        (e.account_id = "" ∨ e.group_id = "" ∨ e.amount = none ∨
          (∃ q ∈ pre', q.account_id = e.account_id) ∨
          e.account_id ∈ p.account_id :: seen ∨
          mapGet groups e.group_id = none ∨
          e.amount.getD 0 ≤ 0 ∨
          (∃ rec, mapGet (mapSet m p.account_id r) e.account_id = some rec ∧
            e.amount.getD 0 < rec.claimed)) := by
      intro r
      rcases h with hf | hf | hf | ⟨q, hq, hqe⟩ | hf | hf | hf | ⟨rec, hrec, hlt⟩
      · exact Or.inl hf
      · exact Or.inr (Or.inl hf)
      · exact Or.inr (Or.inr (Or.inl hf))
      · rcases List.mem_cons.mp hq with rfl | hq'
        · exact Or.inr (Or.inr (Or.inr (Or.inr (Or.inl
            (by rw [← hqe]; exact List.mem_cons_self _ _)))))
        · exact Or.inr (Or.inr (Or.inr (Or.inl ⟨q, hq', hqe⟩)))
      · exact Or.inr (Or.inr (Or.inr (Or.inr (Or.inl
          (List.mem_cons_of_mem _ hf)))))
      · exact Or.inr (Or.inr (Or.inr (Or.inr (Or.inr (Or.inl hf)))))
      · exact Or.inr (Or.inr (Or.inr (Or.inr (Or.inr (Or.inr (Or.inl hf))))))
      · by_cases hpe : p.account_id = e.account_id
        · exact Or.inr (Or.inr (Or.inr (Or.inr (Or.inl
            (by rw [hpe]; exact List.mem_cons_self _ _)))))
        · refine Or.inr (Or.inr (Or.inr (Or.inr (Or.inr (Or.inr (Or.inr
            ⟨rec, ?_, hlt⟩))))))
          rw [mapGet_mapSet, if_neg hpe]
          exact hrec
    cases hcur : mapGet m p.account_id with
    | some current =>
      simp only [hcur]
      by_cases h5 : p.amount.getD 0 < current.claimed
      · rw [if_pos h5]; exact ⟨_, rfl⟩
      rw [if_neg h5]
      exact ih e post (p.account_id :: seen) _ (htrans _)
    | none =>
      simp only [hcur]
      exact ih e post (p.account_id :: seen) _ (htrans _)

/-- C8.  If any entry of an `upsert_investors` batch fails validation — a
missing field, a duplicate account within the batch, an unknown group, a
non-positive amount, or an amount below the account's already-claimed value —
the call aborts and the observable investor ledger equals the ledger before
the call: no entry's mutation is retained. -/
theorem upsert_investors_all_or_nothing (s : ContractState)
    (pre : List InvestorInput) (e : InvestorInput) (post : List InvestorInput)
    (h : invalidInvestorEntry s pre e) :
    (∃ err, upsert_investors s (pre ++ e :: post) = .err err) ∧
    (resultState s (upsert_investors s (pre ++ e :: post))).investors =
      s.investors := by
  obtain ⟨err, herr⟩ := upsertInvestorsAux_error s.groups pre e post []
    s.investors
    (by rcases h with hf | hf | hf | hf | hf | hf | hf
        · exact Or.inl hf
        · exact Or.inr (Or.inl hf)
        · exact Or.inr (Or.inr (Or.inl hf))
        · exact Or.inr (Or.inr (Or.inr (Or.inl hf)))
        · exact Or.inr (Or.inr (Or.inr (Or.inr (Or.inr (Or.inl hf)))))
        · exact Or.inr (Or.inr (Or.inr (Or.inr (Or.inr (Or.inr (Or.inl hf))))))
        · exact Or.inr (Or.inr (Or.inr (Or.inr (Or.inr (Or.inr (Or.inr hf)))))))
  have hne : pre ++ e :: post ≠ [] := by
    cases pre <;> simp
  have hcall : upsert_investors s (pre ++ e :: post) = .err err := by
    simp [upsert_investors, hne, herr]
  exact ⟨⟨err, hcall⟩, by rw [hcall]; rfl⟩

/-- C8, witness: a one-entry batch whose amount 1 is below the account's
already-claimed value 2 fails and leaves the ledger unchanged. -/
theorem upsert_investors_all_or_nothing_witness :
    (∃ err, upsert_investors upsertWitnessState [⟨"alice", "g", some 1⟩] =
      .err err) ∧
    (resultState upsertWitnessState
      (upsert_investors upsertWitnessState [⟨"alice", "g", some 1⟩])).investors =
      upsertWitnessState.investors :=
  upsert_investors_all_or_nothing upsertWitnessState [] ⟨"alice", "g", some 1⟩
    [] (by decide)

/-! ### Per-operation lemmas for the reachability invariants -/

/-- The per-investor bounds: every stored record has
`0 ≤ claimed ≤ totalAllocation`. -/
def InvOK (m : List (String × InvestorRecord)) : Prop :=
  ∀ a rec, mapGet m a = some rec →
    0 ≤ rec.claimed ∧ rec.claimed ≤ rec.totalAllocation

/-- The pool accounting identity. -/
def PoolOK (s : ContractState) : Prop :=
  s.poolBalance = s.totalDeposited - s.totalClaimed - s.totalWithdrawn

theorem setInitialClaimConfig_ok_proj (s : ContractState) (a b : Option Int)
    (s' : ContractState) (h : setInitialClaimConfig s a b = .ok s') :
    s'.totalDeposited = s.totalDeposited ∧ s'.totalClaimed = s.totalClaimed ∧
    s'.totalWithdrawn = s.totalWithdrawn ∧ s'.poolBalance = s.poolBalance ∧
    s'.investors = s.investors := by
  simp only [setInitialClaimConfig] at h
  split_ifs at h
  cases h
  exact ⟨rfl, rfl, rfl, rfl, rfl⟩

theorem setGroupsInternal_ok_proj (s : ContractState)
    (gs : List GroupConfigInput) (s' : ContractState)
    (h : setGroupsInternal s gs = .ok s') :
    s'.totalDeposited = s.totalDeposited ∧ s'.totalClaimed = s.totalClaimed ∧
    s'.totalWithdrawn = s.totalWithdrawn ∧ s'.poolBalance = s.poolBalance ∧
    s'.investors = s.investors := by
  unfold setGroupsInternal at h
  split_ifs at h
  cases haux : setGroupsAux [] [] gs with
  | ok gsp =>
    simp only [haux] at h
    cases h
    exact ⟨rfl, rfl, rfl, rfl, rfl⟩
  | err e => simp [haux] at h

theorem init_ok_proj (s : ContractState) (caller : String)
    (owner : Option String) (tok : String) (tge : Int)
    (gs : List GroupConfigInput) (icb ict : Option Int) (s' : ContractState)
    (h : init s caller owner tok tge gs icb ict = .ok s') :
    s'.totalDeposited = s.totalDeposited ∧ s'.totalClaimed = s.totalClaimed ∧
    s'.totalWithdrawn = s.totalWithdrawn ∧ s'.poolBalance = s.poolBalance ∧
    s'.investors = s.investors := by
  simp only [init] at h
  split_ifs at h
  split at h
  next e heq => exact absurd h (by simp)
  next s2 heq =>
    obtain ⟨d1, c1, w1, p1, i1⟩ := setInitialClaimConfig_ok_proj _ _ _ _ heq
    obtain ⟨d2, c2, w2, p2, i2⟩ := setGroupsInternal_ok_proj _ _ _ h
    exact ⟨d2.trans d1, c2.trans c1, w2.trans w1, p2.trans p1, i2.trans i1⟩

theorem configure_initial_claim_ok_proj (s : ContractState)
    (icb ict : Option Int) (s' : ContractState)
    (h : configure_initial_claim s icb ict = .ok s') :
    s'.totalDeposited = s.totalDeposited ∧ s'.totalClaimed = s.totalClaimed ∧
    s'.totalWithdrawn = s.totalWithdrawn ∧ s'.poolBalance = s.poolBalance ∧
    s'.investors = s.investors := by
  unfold configure_initial_claim at h
  split_ifs at h
  exact setInitialClaimConfig_ok_proj _ _ _ _ h

theorem upsert_investors_ok_counters (s : ContractState)
    (l : List InvestorInput) (s' : ContractState)
    (h : upsert_investors s l = .ok s') :
    s'.totalDeposited = s.totalDeposited ∧ s'.totalClaimed = s.totalClaimed ∧
    s'.totalWithdrawn = s.totalWithdrawn ∧ s'.poolBalance = s.poolBalance := by
  unfold upsert_investors at h
  split_ifs at h
  cases haux : upsertInvestorsAux s.groups [] s.investors l with
  | ok inv => simp only [haux] at h; cases h; exact ⟨rfl, rfl, rfl, rfl⟩
  | err e => simp [haux] at h

/-- The `upsert_investors` loop preserves the per-investor bounds. -/
theorem upsertInvestorsAux_invOK (groups : List (String × GroupConfig)) :
    ∀ (entries : List InvestorInput) (seen : List String)
      (m inv' : List (String × InvestorRecord)), InvOK m →
      upsertInvestorsAux groups seen m entries = .ok inv' → InvOK inv' := by
  intro entries
  induction entries with
  | nil => intro seen m inv' hm h; cases h; exact hm
  | cons e rest ih =>
    intro seen m inv' hm h
    cases hcur : mapGet m e.account_id with
    | some current =>
      simp only [upsertInvestorsAux, hcur] at h
      split_ifs at h with h1 h2 h3 h4 h5
      refine ih _ _ _ ?_ h
      intro a rec hr
      rw [mapGet_mapSet] at hr
      by_cases hea : e.account_id = a
      · rw [if_pos hea] at hr
        cases hr
        have hcb := hm e.account_id current hcur
        exact ⟨hcb.1, show current.claimed ≤ e.amount.getD 0 by omega⟩
      · rw [if_neg hea] at hr
        exact hm a rec hr
    | none =>
      simp only [upsertInvestorsAux, hcur] at h
      split_ifs at h with h1 h2 h3 h4
      refine ih _ _ _ ?_ h
      intro a rec hr
      rw [mapGet_mapSet] at hr
      by_cases hea : e.account_id = a
      · rw [if_pos hea] at hr
        cases hr
        exact ⟨le_refl 0, show (0 : Int) ≤ e.amount.getD 0 by omega⟩
      · rw [if_neg hea] at hr
        exact hm a rec hr

theorem upsert_investors_invOK (s : ContractState) (l : List InvestorInput)
    (s' : ContractState) (h : upsert_investors s l = .ok s')
    (hm : InvOK s.investors) : InvOK s'.investors := by
  unfold upsert_investors at h
  split_ifs at h
  cases haux : upsertInvestorsAux s.groups [] s.investors l with
  | ok inv =>
    simp only [haux] at h
    cases h
    exact upsertInvestorsAux_invOK s.groups l [] s.investors inv hm haux
  | err e => simp [haux] at h

/-- Characterization of a successful `claim`. -/
theorem claim_ok_spec (s : ContractState) (claimant : String) (ts : Int)
    (s' : ContractState) (p : PendingTransfer)
    (h : claim s claimant ts = .ok (s', p)) :
    ∃ rec, mapGet s.investors claimant = some rec ∧
      0 < computeClaimable s claimant ts ∧
      computeClaimable s claimant ts ≤ s.poolBalance ∧
      s' = { s with
              investors := mapSet s.investors claimant
                { rec with
                    claimed := rec.claimed + computeClaimable s claimant ts }
              totalClaimed := s.totalClaimed + computeClaimable s claimant ts
              poolBalance := s.poolBalance - computeClaimable s claimant ts } ∧
      p = ⟨claimant, computeClaimable s claimant ts⟩ := by
  cases hrec : mapGet s.investors claimant with
  | none => simp [claim, hrec] at h
  | some rec =>
    simp only [claim, hrec] at h
    split_ifs at h with h1 h2
    injection h with h'
    injection h' with hA hB
    subst hA
    subst hB
    exact ⟨rec, rfl, by omega, by omega, rfl, rfl⟩

/-- A positive claimable amount is exactly the headroom up to the vested
amount, hence bounded by the allocation. -/
theorem computeClaimable_pos_bound (s : ContractState) (a : String) (ts : Int)
    (rec : InvestorRecord) (hrec : mapGet s.investors a = some rec)
    (hpos : 0 < computeClaimable s a ts) :
    rec.claimed + computeClaimable s a ts ≤ rec.totalAllocation := by
  cases hgrp : mapGet s.groups rec.groupId with
  | none => simp [computeClaimable, hrec, hgrp] at hpos
  | some g =>
    simp only [computeClaimable, hrec, hgrp] at hpos ⊢
    have hle := computeVestedAmount_le_total s.tgeTimestampNs
      s.initialClaimBasisPoints s.initialClaimAvailableTimestampNs
      rec.totalAllocation g ts
    split_ifs at hpos ⊢ <;> omega

/-- Characterization of a successful `withdraw_unallocated`. -/
theorem withdraw_ok_spec (s : ContractState) (amount : Option Int)
    (recipient : Option String) (s' : ContractState) (p : PendingTransfer)
    (h : withdraw_unallocated s amount recipient = .ok (s', p)) :
    ∃ w, amount = some w ∧ 0 < w ∧ w ≤ s.poolBalance ∧
      s' = { s with poolBalance := s.poolBalance - w
                    totalWithdrawn := s.totalWithdrawn + w } ∧
      p = ⟨recipient.getD s.owner, w⟩ := by
  cases amount with
  | none => simp [withdraw_unallocated] at h
  | some w =>
    simp only [withdraw_unallocated] at h
    split_ifs at h with h1 h2
    injection h with h'
    injection h' with hA hB
    subst hA
    subst hB
    exact ⟨w, rfl, by omega, by omega, rfl, rfl⟩

/-- Characterization of a successful `ft_on_transfer`. -/
theorem ft_on_transfer_ok_spec (s : ContractState) (amount : Option Int)
    (s' : ContractState) (h : ft_on_transfer s amount = .ok s') :
    ∃ d, amount = some d ∧ 0 < d ∧
      s' = { s with poolBalance := s.poolBalance + d
                    totalDeposited := s.totalDeposited + d } := by
  cases amount with
  | none => simp [ft_on_transfer] at h
  | some d =>
    simp only [ft_on_transfer] at h
    split_ifs at h with h1
    cases h
    exact ⟨d, rfl, by omega, rfl⟩

/-- Overwriting one record with a raised `claimed` that still fits inside its
allocation preserves the per-investor bounds. -/
theorem InvOK_mapSet_claim (m : List (String × InvestorRecord)) (key : String)
    (rec : InvestorRecord) (c : Int) (hm : InvOK m)
    (hrec : mapGet m key = some rec) (hc : 0 < c)
    (hbound : rec.claimed + c ≤ rec.totalAllocation) :
    InvOK (mapSet m key { rec with claimed := rec.claimed + c }) := by
  intro a r hr
  rw [mapGet_mapSet] at hr
  by_cases hka : key = a
  · rw [if_pos hka] at hr
    cases hr
    have hb := hm key rec hrec
    exact ⟨show (0 : Int) ≤ rec.claimed + c by omega,
      show rec.claimed + c ≤ rec.totalAllocation from hbound⟩
  · rw [if_neg hka] at hr
    exact hm a r hr

/-- A claim-resolution continuation never changes the persisted state: on
success it writes nothing, on failure it aborts (so its compensating writes
are discarded). -/
theorem on_claim_complete_resultState (s : ContractState) (a : String)
    (amt : Int) (b : Bool) :
    resultState s (on_claim_complete s a amt b) = s := by
  cases b with
  | true => rfl
  | false =>
    simp only [on_claim_complete, Bool.false_eq_true, if_false]
    cases hcur : mapGet s.investors a <;> simp [hcur, resultState]

/-- A withdraw-resolution continuation never changes the persisted state. -/
theorem on_withdraw_complete_resultState (s : ContractState) (amt : Int)
    (b : Bool) :
    resultState s (on_withdraw_complete s amt b) = s := by
  cases b <;> rfl

/-! ### The reachability invariant -/

/-- Every reachable world satisfies both ledger invariants: the per-investor
claimed bounds and the pool accounting identity. -/
theorem reach_inv (w : World) (h : Reach w) :
    InvOK w.cs.investors ∧ PoolOK w.cs := by
  induction h with
  | deployed =>
    constructor
    · intro a rec hr; simp [initialWorld, initialContractState, mapGet] at hr
    · rfl
  | step hr hs ih =>
    obtain ⟨hinv, hpool⟩ := ih
    cases hs with
    | initOp h =>
      obtain ⟨d, c, wd, p, inv⟩ := init_ok_proj _ _ _ _ _ _ _ _ _ h
      exact ⟨by rw [inv]; exact hinv,
        by unfold PoolOK; rw [p, d, c, wd]; exact hpool⟩
    | configureGroupsOp h =>
      have h' : setGroupsInternal _ _ = .ok _ := h
      obtain ⟨d, c, wd, p, inv⟩ := setGroupsInternal_ok_proj _ _ _ h'
      exact ⟨by rw [inv]; exact hinv,
        by unfold PoolOK; rw [p, d, c, wd]; exact hpool⟩
    | configureInitialClaimOp h =>
      obtain ⟨d, c, wd, p, inv⟩ := configure_initial_claim_ok_proj _ _ _ _ h
      exact ⟨by rw [inv]; exact hinv,
        by unfold PoolOK; rw [p, d, c, wd]; exact hpool⟩
    | upsertOp h =>
      obtain ⟨d, c, wd, p⟩ := upsert_investors_ok_counters _ _ _ h
      exact ⟨upsert_investors_invOK _ _ _ h hinv,
        by unfold PoolOK; rw [p, d, c, wd]; exact hpool⟩
    | ftOnTransferOp h =>
      obtain ⟨d, hd, hdpos, hs'⟩ := ft_on_transfer_ok_spec _ _ _ h
      subst hs'
      refine ⟨fun a rec hr => hinv a rec hr, ?_⟩
      unfold PoolOK at hpool ⊢
      simp only
      omega
    | claimOp h =>
      obtain ⟨rec, hrec, hposc, hle, hs', hp⟩ := claim_ok_spec _ _ _ _ _ h
      subst hs'
      refine ⟨InvOK_mapSet_claim _ _ rec _ hinv hrec hposc
        (computeClaimable_pos_bound _ _ _ rec hrec hposc), ?_⟩
      unfold PoolOK at hpool ⊢
      simp only
      omega
    | withdrawOp h =>
      obtain ⟨wamt, hw, hwpos, hwle, hs', hp⟩ := withdraw_ok_spec _ _ _ _ _ h
      subst hs'
      refine ⟨fun a rec hr => hinv a rec hr, ?_⟩
      unfold PoolOK at hpool ⊢
      simp only
      omega
    | resolveClaimOp success hmem =>
      simp only [on_claim_complete_resultState]
      exact ⟨hinv, hpool⟩
    | resolveWithdrawOp success hmem =>
      simp only [on_withdraw_complete_resultState]
      exact ⟨hinv, hpool⟩

/-! ### C2 and C3: the reachable-state invariants -/

/-- C2.  In every world reachable by any sequence of operations (init,
configure_groups, configure_initial_claim, upsert_investors, claim,
withdraw_unallocated, ft_on_transfer and the resolution callbacks), every
stored investor record satisfies `0 ≤ claimed ≤ totalAllocation`. -/
theorem reach_claimed_bounds (w : World) (hw : Reach w) (a : String)
    (rec : InvestorRecord) (hrec : mapGet w.cs.investors a = some rec) :
    0 ≤ rec.claimed ∧ rec.claimed ≤ rec.totalAllocation :=
  (reach_inv w hw).1 a rec hrec

/-- C3.  In every reachable world the pool counters satisfy
`poolBalance = totalDeposited − totalClaimed − totalWithdrawn`. -/
theorem reach_pool_identity (w : World) (hw : Reach w) :
    w.cs.poolBalance =
      w.cs.totalDeposited - w.cs.totalClaimed - w.cs.totalWithdrawn :=
  (reach_inv w hw).2

/-- First intermediate state of the witness run: after `init`. -/
def witnessCs1 : ContractState :=
  { initialContractState with
      owner := "owner"
      tokenAccountId := "token"
      groups := [("g", ⟨0, 0, 0⟩)] }

/-- Second intermediate state of the witness run: after `upsert_investors`. -/
def witnessCs2 : ContractState :=
  { witnessCs1 with investors := [("alice", ⟨"g", 5, 0⟩)] }

/-- `claimWitnessState` is reachable: deploy, `init`, `upsert_investors`,
`ft_on_transfer`. -/
theorem claimWitnessState_reach : Reach ⟨claimWitnessState, [], []⟩ := by
  have h1 : Step initialWorld ⟨witnessCs1, [], []⟩ :=
    Step.initOp (show init initialContractState "owner" none "token" 0
      [⟨"g", 0, 0, none⟩] none none = .ok witnessCs1 by decide)
  have h2 : Step ⟨witnessCs1, [], []⟩ ⟨witnessCs2, [], []⟩ :=
    Step.upsertOp (show upsert_investors witnessCs1 [⟨"alice", "g", some 5⟩] =
      .ok witnessCs2 by decide)
  have h3 : Step ⟨witnessCs2, [], []⟩ ⟨claimWitnessState, [], []⟩ :=
    Step.ftOnTransferOp (show ft_on_transfer witnessCs2 (some 5) =
      .ok claimWitnessState by decide)
  exact Reach.step (Reach.step (Reach.step Reach.deployed h1) h2) h3

/-- C2, witness: `alice`'s record in the reachable world built by
`claimWitnessState_reach` satisfies the bounds. -/
theorem reach_claimed_bounds_witness :
    0 ≤ (InvestorRecord.mk "g" 5 0).claimed ∧
    (InvestorRecord.mk "g" 5 0).claimed ≤
      (InvestorRecord.mk "g" 5 0).totalAllocation :=
  reach_claimed_bounds ⟨claimWitnessState, [], []⟩ claimWitnessState_reach
    "alice" ⟨"g", 5, 0⟩ (by decide)

/-- C3, witness: the pool identity in the same reachable world. -/
theorem reach_pool_identity_witness :
    claimWitnessState.poolBalance = claimWitnessState.totalDeposited -
      claimWitnessState.totalClaimed - claimWitnessState.totalWithdrawn :=
  reach_pool_identity ⟨claimWitnessState, [], []⟩ claimWitnessState_reach

/-! ### C5: the compensating rollback is discarded by the final throw -/

/-- The contract state right after `claim` has applied its optimistic
mutation of amount 5 to `claimWitnessState`. -/
def postClaimState : ContractState :=
  { claimWitnessState with
      investors := [("alice", ⟨"g", 5, 5⟩)]
      totalClaimed := 5
      poolBalance := 0 }

/-- The contract state right after `withdraw_unallocated` has applied its
optimistic mutation of amount 3 to `claimWitnessState`. -/
def postWithdrawState : ContractState :=
  { claimWitnessState with
      poolBalance := 2
      totalWithdrawn := 3 }

/-- C5, evaluated at a concrete failing run.  A claim of 5 moves
`claimWitnessState` to `postClaimState`; when the transfer then fails, the
resolution callback `on_claim_complete` aborts with `TransferFailed`, so
under the hosting environment's atomic-call guarantee (the same guarantee the
all-or-nothing properties rely on) the persisted state stays
`postClaimState`, which differs from the pre-claim state.  The catch branch's
writes (`claimRevertWrites`) would have restored the pre-claim state
bit-for-bit — that is the specified compensation — but the branch ends in a
throw, so they are discarded.  The withdraw path behaves the same way. -/
theorem resolution_callback_discards_compensation :
    claim claimWitnessState "alice" 10 = .ok (postClaimState, ⟨"alice", 5⟩) ∧
    on_claim_complete postClaimState "alice" 5 false = .err .transferFailed ∧
    resultState postClaimState
      (on_claim_complete postClaimState "alice" 5 false) = postClaimState ∧
    claimRevertWrites postClaimState "alice" 5 = some claimWitnessState ∧
    postClaimState ≠ claimWitnessState ∧
    withdraw_unallocated claimWitnessState (some 3) none =
      .ok (postWithdrawState, ⟨"owner", 3⟩) ∧
    on_withdraw_complete postWithdrawState 3 false = .err .transferFailed ∧
    resultState postWithdrawState
      (on_withdraw_complete postWithdrawState 3 false) = postWithdrawState ∧
    withdrawRevertWrites postWithdrawState 3 = claimWitnessState ∧
    postWithdrawState ≠ claimWitnessState := by
  decide

end InvestorVesting
